import Mathlib

set_option autoImplicit false

namespace CCNotify

/-- JSON values as produced by `JSON.parse`: objects are ordered association lists,
mirroring JavaScript property insertion order. -/
inductive Json where
  | null : Json
  | bool (b : Bool) : Json
  | num (n : Int) : Json
  | str (s : String) : Json
  | arr (elems : List Json) : Json
  | obj (fields : List (String × Json)) : Json

/-- JavaScript truthiness of a JSON value (`if (x)`): `null`, `false`, `0` and `""`
are falsy; every array and object is truthy. -/
def truthy : Json → Bool
  | .null => false
  | .bool b => b
  | .num n => n != 0
  | .str s => s != ""
  | .arr _ => true
  | .obj _ => true

/-- First-occurrence lookup in an ordered association list, modelling JS `o[k]`
for own properties; `none` models `undefined`. -/
def objGet {α : Type} : List (String × α) → String → Option α
  | [], _ => none
  | (k', v) :: rest, k => if k' = k then some v else objGet rest k

/-- JS property assignment `o[k] = v`: overwrite the first occurrence in place if
the key exists (JS keeps the key's insertion-order position), else append. -/
def objSet {α : Type} : List (String × α) → String → α → List (String × α)
  | [], k, v => [(k, v)]
  | (k', v') :: rest, k, v => if k' = k then (k, v) :: rest else (k', v') :: objSet rest k v

theorem objGet_objSet_self {α : Type} (l : List (String × α)) (k : String) (v : α) :
    objGet (objSet l k v) k = some v := by
  induction l with
  | nil => simp [objGet, objSet]
  | cons p rest ih =>
    obtain ⟨k0, v0⟩ := p
    by_cases h : k0 = k
    · simp [objSet, objGet, h]
    · simp [objSet, objGet, h, ih]

theorem objGet_objSet_ne {α : Type} (l : List (String × α)) (k k' : String) (v : α)
    (h : k' ≠ k) : objGet (objSet l k v) k' = objGet l k' := by
  induction l with
  | nil => simp [objGet, objSet, Ne.symm h]
  | cons p rest ih =>
    obtain ⟨k0, v0⟩ := p
    by_cases h0 : k0 = k
    · subst h0
      simp [objSet, objGet, Ne.symm h]
    · simp [objSet, objGet, h0, ih]

/-- Error kinds of the application (the `ErrorType` enum in src/types). -/
inductive ErrorType where
  | invalidWebhookUrl
  | invalidTopicName
  | filePermissionError
  | jsonParseError
  | configBackupError
  | directoryAccessError
  | scriptCreationError
  | validationError
  | networkError
  | commandError
  deriving Repr, DecidableEq

/-- The character class removed by `sanitizeInput` (src/services/validation.ts:102):
0x00-0x08, 0x0B, 0x0C, 0x0E-0x1F and 0x7F, preserving newline (0x0A) and tab (0x09). -/
def isStrippedControl (c : Char) : Bool :=
  c.toNat ≤ 0x08 || c.toNat == 0x0B || c.toNat == 0x0C ||
    (0x0E ≤ c.toNat && c.toNat ≤ 0x1F) || c.toNat == 0x7F

/-- The WhiteSpace and LineTerminator code points removed by JavaScript
`String.prototype.trim` (ECMA-262). -/
def isJsWhitespace (c : Char) : Bool :=
  c.toNat == 0x09 || c.toNat == 0x0A || c.toNat == 0x0B || c.toNat == 0x0C ||
    c.toNat == 0x0D || c.toNat == 0x20 || c.toNat == 0xA0 || c.toNat == 0x1680 ||
    (0x2000 ≤ c.toNat && c.toNat ≤ 0x200A) || c.toNat == 0x2028 || c.toNat == 0x2029 ||
    c.toNat == 0x202F || c.toNat == 0x205F || c.toNat == 0x3000 || c.toNat == 0xFEFF

/-- JavaScript `trim`: drop leading and trailing whitespace. -/
def jsTrim (l : List Char) : List Char :=
  ((l.dropWhile isJsWhitespace).reverse.dropWhile isJsWhitespace).reverse

/-- `sanitizeInput` (src/services/validation.ts:96-113) on a string argument: the
`!input` guard returns `''` for the empty string; otherwise control characters are
removed, the result is trimmed, then truncated to 2048 characters. -/
def sanitizeInput (input : String) : String :=
  if input = "" then ""
  else
    let s1 := input.data.filter (fun c => !isStrippedControl c)
    let s2 := jsTrim s1
    let s3 := if s2.length > 2048 then s2.take 2048 else s2
    ⟨s3⟩

/-- `sanitizeInput` called with an arbitrary runtime value: the
`!input || typeof input !== 'string'` guard maps every non-string value to `''`. -/
def sanitizeInputValue : Json → String
  | .str s => sanitizeInput s
  | _ => ""

/-- The character class `[a-zA-Z0-9_-]` of the ntfy topic pattern
(src/services/validation.ts:53); the class `[\w-]` of the Discord webhook pattern
denotes the same set. -/
def isTopicChar (c : Char) : Bool :=
  ('a' ≤ c && c ≤ 'z') || ('A' ≤ c && c ≤ 'Z') || ('0' ≤ c && c ≤ '9') ||
    c == '_' || c == '-'

/-- The regex `^[a-zA-Z0-9_-]{1,64}$` applied to a whole string. -/
def ntfyTopicPatternOk (l : List Char) : Bool :=
  decide (1 ≤ l.length) && decide (l.length ≤ 64) && l.all isTopicChar

/-- `validateNtfyTopicName` (src/services/validation.ts:41-90); `.error` models the
thrown `CCNotifyError`. -/
def validateNtfyTopicName (topicName : String) : Except (ErrorType × String) Unit :=
  if topicName = "" then
    .error (.invalidTopicName, "ntfy topic name is required and must be a string")
  else if !ntfyTopicPatternOk topicName.data then
    .error (.invalidTopicName,
      "Invalid ntfy topic name. Must be 1-64 characters long and contain only letters, numbers, hyphens, and underscores")
  else if topicName.data.head? == some '-' || topicName.data.head? == some '_' ||
      topicName.data.getLast? == some '-' || topicName.data.getLast? == some '_' then
    .error (.invalidTopicName, "ntfy topic name cannot start or end with hyphens or underscores")
  else
    .ok ()

/-- `validateAndSanitizeNtfyTopic` (src/services/validation.ts:127-131). -/
def validateAndSanitizeNtfyTopic (topicName : String) : Except (ErrorType × String) String :=
  (validateNtfyTopicName (sanitizeInput topicName)).map (fun _ => sanitizeInput topicName)

/-- Digits `\d` (ASCII, since the source regex has no `u` flag). -/
def isDigitCh (c : Char) : Bool := '0' ≤ c && c ≤ '9'

/-- Remove a literal from the front of a character list; `none` when it is not there. -/
def dropLit : List Char → List Char → Option (List Char)
  | [], rest => some rest
  | _ :: _, [] => none
  | p :: ps, c :: cs => if c = p then dropLit ps cs else none

/-- The tail `\d+\/[\w-]+$` of the Discord webhook regex: one or more digits, a
slash, then one or more word characters or hyphens, ending the string. -/
def digitsSlashToken (l : List Char) : Bool :=
  !(l.takeWhile isDigitCh).isEmpty &&
    ((l.dropWhile isDigitCh).head? == some '/') &&
    !(l.dropWhile isDigitCh).tail.isEmpty &&
    (l.dropWhile isDigitCh).tail.all isTopicChar

/-- The regex `^https:\/\/discord(?:app)?\.com\/api\/webhooks\/\d+\/[\w-]+$`
(src/services/validation.ts:20). -/
def discordWebhookPatternOk (url : String) : Bool :=
  match dropLit "https://discord.com/api/webhooks/".data url.data with
  | some rest => digitsSlashToken rest
  | none =>
    match dropLit "https://discordapp.com/api/webhooks/".data url.data with
    | some rest => digitsSlashToken rest
    | none => false

/-- `validateDiscordWebhookUrl` (src/services/validation.ts:8-35). -/
def validateDiscordWebhookUrl (url : String) : Except (ErrorType × String) Unit :=
  if url = "" then
    .error (.invalidWebhookUrl, "Discord webhook URL is required and must be a string")
  else if !discordWebhookPatternOk url then
    .error (.invalidWebhookUrl, "Invalid Discord webhook URL format")
  else
    .ok ()

/-- `validateAndSanitizeDiscordUrl` (src/services/validation.ts:118-122). -/
def validateAndSanitizeDiscordUrl (url : String) : Except (ErrorType × String) String :=
  (validateDiscordWebhookUrl (sanitizeInput url)).map (fun _ => sanitizeInput url)

/-- The topic-name condition as the specification words it: 1-64 characters drawn
from `[A-Za-z0-9_-]`, not starting or ending with `-` or `_`. -/
def specTopicOk (s : String) : Prop :=
  1 ≤ s.data.length ∧ s.data.length ≤ 64 ∧ (∀ c ∈ s.data, isTopicChar c = true) ∧
    s.data.head? ≠ some '-' ∧ s.data.head? ≠ some '_' ∧
    s.data.getLast? ≠ some '-' ∧ s.data.getLast? ≠ some '_'

/-- The webhook-URL shape as the specification words it:
`https://<host>/api/webhooks/<digits>/<token-chars>` with no extra path segments,
query string or fragment, and the host one of the two allowed literal domains. -/
def specWebhookOk (s : String) : Prop :=
  ∃ host d t, (host = "discord.com" ∨ host = "discordapp.com") ∧
    s.data = ("https://" ++ host ++ "/api/webhooks/").data ++ (d ++ '/' :: t) ∧
    d ≠ [] ∧ (∀ c ∈ d, isDigitCh c = true) ∧ t ≠ [] ∧ (∀ c ∈ t, isTopicChar c = true)

theorem validateNtfyTopicName_ok_iff (s : String) :
    (validateNtfyTopicName s).isOk = true ↔ specTopicOk s := by
  unfold validateNtfyTopicName specTopicOk
  by_cases h0 : s = ""
  · subst h0
    simp [Except.isOk, Except.toBool]
  · rw [if_neg h0]
    by_cases h1 : ntfyTopicPatternOk s.data = true
    · rw [h1]
      by_cases h2 : (s.data.head? == some '-' || s.data.head? == some '_' ||
          s.data.getLast? == some '-' || s.data.getLast? == some '_') = true
      · simp only [h2, if_true, Bool.not_true, if_false]
        simp only [Bool.or_eq_true, beq_iff_eq] at h2
        constructor
        · intro hc; cases hc
        · rintro ⟨-, -, -, hA, hB, hC, hD⟩
          rcases h2 with ((h | h) | h) | h <;> [exact absurd h hA; exact absurd h hB;
            exact absurd h hC; exact absurd h hD]
      · simp only [Bool.not_eq_true] at h2
        simp only [h2, Bool.not_true, Bool.false_eq_true, if_false, Except.isOk, Except.toBool]
        simp only [Bool.or_eq_false_iff, beq_eq_false_iff_ne] at h2
        unfold ntfyTopicPatternOk at h1
        simp only [Bool.and_eq_true, decide_eq_true_eq, List.all_eq_true] at h1
        constructor
        · intro _
          exact ⟨h1.1.1, h1.1.2, h1.2, h2.1.1.1, h2.1.1.2, h2.1.2, h2.2⟩
        · intro _; trivial
    · simp only [Bool.not_eq_true] at h1
      simp only [h1, Bool.not_false, if_true, Except.isOk, Except.toBool]
      unfold ntfyTopicPatternOk at h1
      simp only [Bool.and_eq_false_iff, decide_eq_false_iff_not, List.all_eq_false] at h1
      constructor
      · intro hc; cases hc
      · rintro ⟨hlen1, hlen2, hall, -⟩
        rcases h1 with (h | h) | ⟨c, hc, hcc⟩
        · exact absurd hlen1 h
        · exact absurd hlen2 h
        · exact absurd (hall c hc) (by simp [hcc])

theorem validateNtfyTopicName_err_kind (s : String) : ∀ e msg,
    validateNtfyTopicName s = .error (e, msg) → e = .invalidTopicName := by
  intro e msg h
  unfold validateNtfyTopicName at h
  by_cases h0 : s = ""
  · rw [if_pos h0] at h
    cases h
    rfl
  · rw [if_neg h0] at h
    by_cases h1 : (!ntfyTopicPatternOk s.data) = true
    · rw [if_pos h1] at h
      cases h
      rfl
    · rw [if_neg h1] at h
      by_cases h2 : (s.data.head? == some '-' || s.data.head? == some '_' ||
          s.data.getLast? == some '-' || s.data.getLast? == some '_') = true
      · rw [if_pos h2] at h
        cases h
        rfl
      · rw [if_neg h2] at h
        cases h

/-- C6: topic-name validation accepts exactly the sanitized strings of 1-64
characters from `[A-Za-z0-9_-]` that do not start or end with `-` or `_`; every
boundary example from the specification behaves as claimed; and every failure
carries the `INVALID_TOPIC_NAME` error kind. -/
theorem validateNtfyTopic_accepts_exactly :
    (∀ raw : String,
      (validateAndSanitizeNtfyTopic raw).isOk = true ↔ specTopicOk (sanitizeInput raw)) ∧
    (validateAndSanitizeNtfyTopic "a").isOk = true ∧
    (validateAndSanitizeNtfyTopic ⟨List.replicate 64 'x'⟩).isOk = true ∧
    (validateAndSanitizeNtfyTopic "").isOk = false ∧
    (validateAndSanitizeNtfyTopic ⟨List.replicate 65 'x'⟩).isOk = false ∧
    (validateAndSanitizeNtfyTopic "-abc").isOk = false ∧
    (validateAndSanitizeNtfyTopic "abc-").isOk = false ∧
    (validateAndSanitizeNtfyTopic "_abc").isOk = false ∧
    (validateAndSanitizeNtfyTopic "abc_").isOk = false ∧
    (validateAndSanitizeNtfyTopic "ab c").isOk = false ∧
    (validateAndSanitizeNtfyTopic "ab.c").isOk = false ∧
    (validateAndSanitizeNtfyTopic "ab/c").isOk = false ∧
    (∀ raw e msg, validateAndSanitizeNtfyTopic raw = .error (e, msg) →
      e = ErrorType.invalidTopicName) := by
  refine ⟨fun raw => ?_, by decide, by decide, by decide, by decide, by decide,
    by decide, by decide, by decide, by decide, by decide, by decide, ?_⟩
  · rw [← validateNtfyTopicName_ok_iff]
    unfold validateAndSanitizeNtfyTopic
    cases validateNtfyTopicName (sanitizeInput raw) <;>
      simp [Except.isOk, Except.toBool, Except.map]
  · intro raw e msg h
    unfold validateAndSanitizeNtfyTopic at h
    cases hv : validateNtfyTopicName (sanitizeInput raw) with
    | error e2 =>
      rw [hv] at h
      simp only [Except.map] at h
      obtain ⟨ek, em⟩ := e2
      cases h
      exact validateNtfyTopicName_err_kind _ _ _ hv
    | ok u =>
      rw [hv] at h
      simp [Except.map] at h

theorem dropLit_self (lit r : List Char) : dropLit lit (lit ++ r) = some r := by
  induction lit with
  | nil => rfl
  | cons c cs ih => simp [dropLit, ih]

theorem dropLit_some (lit s r : List Char) (h : dropLit lit s = some r) : s = lit ++ r := by
  induction lit generalizing s with
  | nil => cases h; rfl
  | cons c cs ih =>
    cases s with
    | nil => cases h
    | cons x xs =>
      unfold dropLit at h
      by_cases hx : x = c
      · subst hx
        rw [if_pos rfl] at h
        rw [List.cons_append, ih xs h]
      · rw [if_neg hx] at h
        cases h

theorem dropLit_ne_none (p q r' : List Char) (x y : Char) (hxy : x ≠ y) :
    dropLit (p ++ x :: q) (p ++ y :: r') = none := by
  induction p with
  | nil => simp [dropLit, Ne.symm hxy]
  | cons c cs ih => simp [dropLit, ih]

theorem takeWhile_append_of_all {α : Type} (p : α → Bool) (d : List α) (x : α) (t : List α)
    (hd : ∀ c ∈ d, p c = true) (hx : p x = false) :
    (d ++ x :: t).takeWhile p = d ∧ (d ++ x :: t).dropWhile p = x :: t := by
  induction d with
  | nil => simp [List.takeWhile, List.dropWhile, hx]
  | cons a d ih =>
    have ha : p a = true := hd a (List.mem_cons_self a d)
    have ih' := ih (fun c hc => hd c (List.mem_cons_of_mem a hc))
    simp [List.takeWhile_cons, List.dropWhile_cons, ha, ih'.1, ih'.2]

theorem digitsSlashToken_comp (d t : List Char) (hd1 : d ≠ [])
    (hd2 : ∀ c ∈ d, isDigitCh c = true) (ht1 : t ≠ [])
    (ht2 : ∀ c ∈ t, isTopicChar c = true) :
    digitsSlashToken (d ++ '/' :: t) = true := by
  obtain ⟨htake, hdrop⟩ := takeWhile_append_of_all isDigitCh d '/' t hd2 (by decide)
  unfold digitsSlashToken
  rw [htake, hdrop]
  simp [hd1, ht1, List.all_eq_true, List.isEmpty_iff]
  exact ht2

theorem digitsSlashToken_decomp (l : List Char) (h : digitsSlashToken l = true) :
    ∃ d t, l = d ++ '/' :: t ∧ d ≠ [] ∧ (∀ c ∈ d, isDigitCh c = true) ∧ t ≠ [] ∧
      (∀ c ∈ t, isTopicChar c = true) := by
  unfold digitsSlashToken at h
  simp only [Bool.and_eq_true, Bool.not_eq_true', beq_iff_eq] at h
  obtain ⟨⟨⟨hne, hhead⟩, htne⟩, hall⟩ := h
  cases hd : l.dropWhile isDigitCh with
  | nil => rw [hd] at hhead; cases hhead
  | cons x rest =>
    rw [hd] at hhead htne hall
    have hx : x = '/' := by simpa using hhead
    subst hx
    have hsplit : l.takeWhile isDigitCh ++ l.dropWhile isDigitCh = l :=
      List.takeWhile_append_dropWhile ..
    rw [hd] at hsplit
    refine ⟨l.takeWhile isDigitCh, rest, hsplit.symm, ?_, ?_, ?_, ?_⟩
    · intro hnil
      rw [hnil] at hne
      simp at hne
    · intro c hc
      exact List.mem_takeWhile_imp hc
    · intro hnil
      rw [List.tail_cons, hnil] at htne
      simp at htne
    · intro c hc
      rw [List.tail_cons, List.all_eq_true] at hall
      exact hall c hc

theorem discordWebhookPatternOk_iff (url : String) :
    discordWebhookPatternOk url = true ↔ specWebhookOk url := by
  have hlit1 : ("https://" ++ "discord.com" ++ "/api/webhooks/") =
      "https://discord.com/api/webhooks/" := rfl
  have hlit2 : ("https://" ++ "discordapp.com" ++ "/api/webhooks/") =
      "https://discordapp.com/api/webhooks/" := rfl
  constructor
  · intro h
    unfold discordWebhookPatternOk at h
    cases hc : dropLit "https://discord.com/api/webhooks/".data url.data with
    | some rest =>
      rw [hc] at h
      obtain ⟨d, t, hrest, hd1, hd2, ht1, ht2⟩ := digitsSlashToken_decomp rest h
      refine ⟨"discord.com", d, t, Or.inl rfl, ?_, hd1, hd2, ht1, ht2⟩
      rw [hlit1, dropLit_some _ _ _ hc, hrest]
    | none =>
      rw [hc] at h
      cases hc2 : dropLit "https://discordapp.com/api/webhooks/".data url.data with
      | some rest =>
        rw [hc2] at h
        obtain ⟨d, t, hrest, hd1, hd2, ht1, ht2⟩ := digitsSlashToken_decomp rest h
        refine ⟨"discordapp.com", d, t, Or.inr rfl, ?_, hd1, hd2, ht1, ht2⟩
        rw [hlit2, dropLit_some _ _ _ hc2, hrest]
      | none =>
        rw [hc2] at h
        cases h
  · rintro ⟨host, d, t, hhost | hhost, hurl, hd1, hd2, ht1, ht2⟩
    · subst hhost
      rw [hlit1] at hurl
      unfold discordWebhookPatternOk
      rw [hurl, dropLit_self]
      exact digitsSlashToken_comp d t hd1 hd2 ht1 ht2
    · subst hhost
      rw [hlit2] at hurl
      unfold discordWebhookPatternOk
      have hne : dropLit "https://discord.com/api/webhooks/".data
          ("https://discordapp.com/api/webhooks/".data ++ (d ++ '/' :: t)) = none := by
        have e1 : "https://discord.com/api/webhooks/".data =
            "https://discord".data ++ '.' :: "com/api/webhooks/".data := rfl
        have e2 : "https://discordapp.com/api/webhooks/".data ++ (d ++ '/' :: t) =
            "https://discord".data ++ 'a' :: ("pp.com/api/webhooks/".data ++ (d ++ '/' :: t)) := by
          rw [show "https://discordapp.com/api/webhooks/".data =
            "https://discord".data ++ 'a' :: "pp.com/api/webhooks/".data from rfl]
          simp [List.append_assoc]
        rw [e1, e2]
        exact dropLit_ne_none _ _ _ '.' 'a' (by decide)
      rw [hurl, hne, dropLit_self]
      exact digitsSlashToken_comp d t hd1 hd2 ht1 ht2

theorem validateDiscordWebhookUrl_ok_iff (s : String) :
    (validateDiscordWebhookUrl s).isOk = true ↔ discordWebhookPatternOk s = true := by
  by_cases h0 : s = ""
  · subst h0
    decide
  · unfold validateDiscordWebhookUrl
    rw [if_neg h0]
    cases h1 : discordWebhookPatternOk s <;>
      simp [h1, Except.isOk, Except.toBool]

theorem validateDiscordWebhookUrl_err_kind (s : String) : ∀ e msg,
    validateDiscordWebhookUrl s = .error (e, msg) → e = .invalidWebhookUrl := by
  intro e msg h
  unfold validateDiscordWebhookUrl at h
  by_cases h0 : s = ""
  · rw [if_pos h0] at h
    cases h
    rfl
  · rw [if_neg h0] at h
    by_cases h1 : (!discordWebhookPatternOk s) = true
    · rw [if_pos h1] at h
      cases h
      rfl
    · rw [if_neg h1] at h
      cases h

/-- C7: webhook-URL validation accepts exactly the sanitized strings of the shape
`https://<host>/api/webhooks/<digits>/<token-chars>` with host one of the two
allowed literal domains and no extra path segments, query string or fragment; the
boundary examples from the specification behave as claimed; and every failure
carries the `INVALID_WEBHOOK_URL` error kind. -/
theorem validateDiscordUrl_accepts_exactly :
    (∀ raw : String,
      (validateAndSanitizeDiscordUrl raw).isOk = true ↔ specWebhookOk (sanitizeInput raw)) ∧
    (validateAndSanitizeDiscordUrl "https://discord.com/api/webhooks/123456789/abcDEF123").isOk
      = true ∧
    (validateAndSanitizeDiscordUrl "http://discord.com/api/webhooks/123456789/abcDEF123").isOk
      = false ∧
    (validateAndSanitizeDiscordUrl
      "https://discord.com/api/webhooks/123456789/abcDEF123/extra").isOk = false ∧
    (validateAndSanitizeDiscordUrl
      "https://discord.com/api/webhooks/123456789/abcDEF123?wait=true").isOk = false ∧
    (∀ raw e msg, validateAndSanitizeDiscordUrl raw = .error (e, msg) →
      e = ErrorType.invalidWebhookUrl) := by
  refine ⟨fun raw => ?_, by decide, by decide, by decide, by decide, ?_⟩
  · rw [← discordWebhookPatternOk_iff, ← validateDiscordWebhookUrl_ok_iff]
    unfold validateAndSanitizeDiscordUrl
    cases validateDiscordWebhookUrl (sanitizeInput raw) <;>
      simp [Except.isOk, Except.toBool, Except.map]
  · intro raw e msg h
    unfold validateAndSanitizeDiscordUrl at h
    cases hv : validateDiscordWebhookUrl (sanitizeInput raw) with
    | error e2 =>
      rw [hv] at h
      simp only [Except.map] at h
      obtain ⟨ek, em⟩ := e2
      cases h
      exact validateDiscordWebhookUrl_err_kind _ _ _ hv
    | ok u =>
      rw [hv] at h
      simp [Except.map] at h

/-- JS truthiness of a possibly-undefined value, as in `updates.hooks && ...`. -/
def truthyOpt : Option Json → Bool
  | none => false
  | some v => truthy v

/-- JS property access on an arbitrary value (`x.matcher`): objects look up the key;
on any other value the access yields `undefined` (`none`). -/
def jsGet : Json → String → Option Json
  | .obj fields, k => objGet fields k
  | _, _ => none

/-- JS strict equality `===` as used for `mergeConfig`'s matcher comparison, where
the left operand comes from the deep clone and the right from `updates`: equal
primitives compare equal; object or array operands are distinct references after the
clone, hence false; `undefined === undefined` is true. -/
def strictEqOpt : Option Json → Option Json → Bool
  | some .null, some .null => true
  | some (.bool a), some (.bool b) => a == b
  | some (.num a), some (.num b) => a == b
  | some (.str a), some (.str b) => a == b
  | none, none => true
  | _, _ => false

/-- View a value as an object's field list. A truthy non-object reaching the places
where `mergeConfig` performs object operations would throw a TypeError in the source;
such states are excluded by the document-shape hypotheses of the theorems below. -/
def asObj : Json → List (String × Json)
  | .obj fields => fields
  | _ => []

/-- View a value as an array's element list (same caveat as `asObj`). -/
def asArr : Json → List Json
  | .arr elems => elems
  | _ => []

/-- One iteration of `updates.hooks.Stop.forEach` in `ConfigManagerImpl.mergeConfig`
(src/services/config.ts:125-138): find the first existing entry whose `matcher` is
`===`-equal to the incoming entry's; replace it at its index, otherwise push. -/
def mergeStopStep (acc : List Json) (newHook : Json) : List Json :=
  match acc.findIdx? (fun existingHook =>
      strictEqOpt (jsGet existingHook "matcher") (jsGet newHook "matcher")) with
  | some i => acc.set i newHook
  | none => acc ++ [newHook]

/-- The whole `updates.hooks.Stop.forEach` loop. -/
def mergeStop (base incoming : List Json) : List Json :=
  incoming.foldl mergeStopStep base

/-- The base array for the Stop merge: `if (!merged.hooks.Stop) merged.hooks.Stop = []`
turns an absent or falsy `Stop` into `[]` (src/services/config.ts:120-122). -/
def stopBase (mh : List (String × Json)) : List Json :=
  match objGet mh "Stop" with
  | some v => if truthy v then asArr v else []
  | none => []

/-- One iteration of `Object.keys(updates.hooks).forEach` (src/services/config.ts:
117-143): the key `Stop` with a truthy `updates.hooks.Stop` gets the element-wise
merge by matcher; any other event key, and `Stop` with a falsy value, is assigned
wholesale. -/
def mergeHooksStep (updatesHooks : List (String × Json)) (mh : List (String × Json))
    (p : String × Json) : List (String × Json) :=
  if p.1 = "Stop" && truthyOpt (objGet updatesHooks "Stop") then
    objSet mh "Stop"
      (.arr (mergeStop (stopBase mh) (asArr ((objGet updatesHooks "Stop").getD .null))))
  else
    objSet mh p.1 p.2

def mergeHooks (mh updatesHooks : List (String × Json)) : List (String × Json) :=
  updatesHooks.foldl (mergeHooksStep updatesHooks) mh

/-- The base object for the hooks merge: `if (!merged.hooks) merged.hooks = {}`
(src/services/config.ts:112-114). -/
def hooksBase (merged : List (String × Json)) : List (String × Json) :=
  match objGet merged "hooks" with
  | some v => if truthy v then asObj v else []
  | none => []

/-- One iteration of `Object.keys(updates).forEach` (src/services/config.ts:109-148):
the key `hooks` with a truthy value gets the hooks merge; every other key is assigned
wholesale. -/
def mergeStep (updates : List (String × Json)) (merged : List (String × Json))
    (p : String × Json) : List (String × Json) :=
  if p.1 = "hooks" && truthyOpt (objGet updates "hooks") then
    objSet merged "hooks" (.obj (mergeHooks (hooksBase merged)
      (asObj ((objGet updates "hooks").getD .null))))
  else
    objSet merged p.1 p.2

/-- `ConfigManagerImpl.mergeConfig` (src/services/config.ts:104-151). The deep clone
`JSON.parse(JSON.stringify(existing))` is the identity on JSON documents, so the fold
starts from `existing`; a top-level JS object is its ordered field list. -/
def mergeConfig (existing updates : List (String × Json)) : List (String × Json) :=
  updates.foldl (mergeStep updates) existing

/-- Whether an entry's `matcher` is `===`-equal to the string `m`. -/
def matcherIs (m : String) (b : Json) : Bool :=
  strictEqOpt (jsGet b "matcher") (some (.str m))

/-- The value of event-name `ev` under a document's `hooks` object (`undefined` when
`hooks` is absent or not an object). -/
def hooksEvGet (fields : List (String × Json)) (ev : String) : Option Json :=
  match objGet fields "hooks" with
  | some (.obj hf) => objGet hf ev
  | _ => none

/-- C10: the empty update object is an identity for `mergeConfig`: merging `{}` into
any document returns a document equal (hence JSON-equivalent) to the deep clone of
the original. -/
theorem mergeConfig_empty_updates (existing : List (String × Json)) :
    mergeConfig existing [] = existing := rfl

theorem strictEqOpt_some_str (o : Option Json) (m : String) :
    strictEqOpt o (some (.str m)) = true ↔ o = some (.str m) := by
  cases o with
  | none => simp [strictEqOpt]
  | some v => cases v <;> simp [strictEqOpt]

theorem findIdx?_first {α : Type} (p : α → Bool) (l1 l2 : List α) (b : α)
    (h1 : ∀ x ∈ l1, p x = false) (hb : p b = true) :
    List.findIdx? p (l1 ++ b :: l2) = some l1.length := by
  induction l1 with
  | nil => simp [List.findIdx?_cons, hb]
  | cons a l ih =>
    have ha := h1 a (List.mem_cons_self a l)
    simp [List.findIdx?_cons, ha, ih (fun x hx => h1 x (List.mem_cons_of_mem a hx))]

theorem findIdx?_none_of_all {α : Type} (p : α → Bool) (l : List α)
    (h : ∀ x ∈ l, p x = false) : List.findIdx? p l = none := by
  induction l with
  | nil => rfl
  | cons a l ih =>
    simp [List.findIdx?_cons, h a (List.mem_cons_self a l),
      ih (fun x hx => h x (List.mem_cons_of_mem a hx))]

theorem set_append_length {α : Type} (l1 l2 : List α) (e : α) (b : α) :
    (l1 ++ b :: l2).set l1.length e = l1 ++ e :: l2 := by
  induction l1 with
  | nil => rfl
  | cons a l ih => simp [List.set, ih]

/-- C1: `mergeConfig`'s Stop merge handles each incoming entry by matcher: an
incoming entry whose string matcher equals an existing entry's replaces it at that
entry's original index (first match); with no matching entry it is appended; and on
the concrete document of the specification the merged array has length 2 with index
0 replaced and index 1 unchanged. -/
theorem mergeConfig_stop_replace_by_matcher
    (l1 l2 : List Json) (b e : Json) (m : String)
    (he : jsGet e "matcher" = some (.str m)) :
    ((∀ x ∈ l1, jsGet x "matcher" ≠ some (.str m)) →
      jsGet b "matcher" = some (.str m) →
      mergeStop (l1 ++ b :: l2) [e] = l1 ++ e :: l2) ∧
    ((∀ x ∈ l1 ++ b :: l2, jsGet x "matcher" ≠ some (.str m)) →
      mergeStop (l1 ++ b :: l2) [e] = (l1 ++ b :: l2) ++ [e]) ∧
    mergeConfig
      [("hooks", .obj [("Stop", .arr [.obj [("matcher", .str "a"), ("n", .num 1)],
        .obj [("matcher", .str "b"), ("n", .num 2)]])])]
      [("hooks", .obj [("Stop", .arr [.obj [("matcher", .str "a"), ("n", .num 3)]])])] =
      [("hooks", .obj [("Stop", .arr [.obj [("matcher", .str "a"), ("n", .num 3)],
        .obj [("matcher", .str "b"), ("n", .num 2)]])])] := by
  refine ⟨?_, ?_, rfl⟩
  · intro h1 hb
    show mergeStopStep (l1 ++ b :: l2) e = l1 ++ e :: l2
    unfold mergeStopStep
    rw [he, findIdx?_first _ l1 l2 b
      (fun x hx => by
        rw [← Bool.not_eq_true, strictEqOpt_some_str]
        exact h1 x hx)
      ((strictEqOpt_some_str _ m).mpr hb)]
    exact set_append_length l1 l2 e b
  · intro hall
    show mergeStopStep (l1 ++ b :: l2) e = (l1 ++ b :: l2) ++ [e]
    unfold mergeStopStep
    rw [he, findIdx?_none_of_all _ _
      (fun x hx => by
        rw [← Bool.not_eq_true, strictEqOpt_some_str]
        exact hall x hx)]

theorem mergeConfig_stop_replace_by_matcher_witness :
    mergeStop [Json.obj [("matcher", Json.str "a")], Json.obj [("matcher", Json.str "b")]]
        [Json.obj [("matcher", Json.str "a"), ("k", Json.num 7)]] =
      [Json.obj [("matcher", Json.str "a"), ("k", Json.num 7)],
        Json.obj [("matcher", Json.str "b")]] := by
  have h := mergeConfig_stop_replace_by_matcher []
    [Json.obj [("matcher", Json.str "b")]] (Json.obj [("matcher", Json.str "a")])
    (Json.obj [("matcher", Json.str "a"), ("k", Json.num 7)]) "a" rfl
  exact h.1 (fun x hx => absurd hx (List.not_mem_nil x)) rfl

theorem objGet_decomp {α : Type} (l : List (String × α)) (k : String) (v : α)
    (h : objGet l k = some v) :
    ∃ l1 l2, l = l1 ++ (k, v) :: l2 ∧ ∀ q ∈ l1, q.1 ≠ k := by
  induction l with
  | nil => cases h
  | cons p rest ih =>
    obtain ⟨k0, v0⟩ := p
    by_cases h0 : k0 = k
    · subst h0
      simp only [objGet, if_pos rfl] at h
      cases h
      exact ⟨[], rest, rfl, by simp⟩
    · simp only [objGet, if_neg h0] at h
      obtain ⟨l1, l2, hl, hne⟩ := ih h
      refine ⟨(k0, v0) :: l1, l2, by rw [hl]; rfl, ?_⟩
      rintro q hq
      rcases List.mem_cons.mp hq with rfl | hq'
      · exact h0
      · exact hne q hq'

theorem objGet_append_cons_self {α : Type} (l1 l2 : List (String × α)) (k : String) (v : α)
    (h : ∀ q ∈ l1, q.1 ≠ k) : objGet (l1 ++ (k, v) :: l2) k = some v := by
  induction l1 with
  | nil => simp [objGet]
  | cons p rest ih =>
    obtain ⟨k0, v0⟩ := p
    have h0 : k0 ≠ k := h (k0, v0) (List.mem_cons_self _ _)
    simp only [List.cons_append, objGet, if_neg h0]
    exact ih (fun q hq => h q (List.mem_cons_of_mem _ hq))

theorem objGet_of_mem_nodup {α : Type} (l : List (String × α)) (k : String) (v : α)
    (hnodup : (l.map Prod.fst).Nodup) (hmem : (k, v) ∈ l) : objGet l k = some v := by
  induction l with
  | nil => cases hmem
  | cons p rest ih =>
    simp only [List.map_cons, List.nodup_cons] at hnodup
    rcases List.mem_cons.mp hmem with rfl | hmem'
    · simp [objGet]
    · obtain ⟨k0, v0⟩ := p
      by_cases h0 : k0 = k
      · subst h0
        exact absurd (List.mem_map_of_mem Prod.fst hmem') hnodup.1
      · simp only [objGet, if_neg h0]
        exact ih hnodup.2 hmem'

theorem objSet_of_objGet {α : Type} (l : List (String × α)) (k : String) (v : α)
    (h : objGet l k = some v) : objSet l k v = l := by
  induction l with
  | nil => cases h
  | cons p rest ih =>
    obtain ⟨k0, v0⟩ := p
    by_cases h0 : k0 = k
    · subst h0
      simp only [objGet, if_pos rfl] at h
      cases h
      simp [objSet]
    · simp only [objGet, if_neg h0] at h
      simp [objSet, h0, ih h]

theorem foldl_id_of_steps {α β : Type} (f : α → β → α) (s : α) (l : List β)
    (h : ∀ x ∈ l, f s x = s) : l.foldl f s = s := by
  induction l with
  | nil => rfl
  | cons x xs ih =>
    rw [List.foldl_cons, h x (List.mem_cons_self x xs)]
    exact ih (fun y hy => h y (List.mem_cons_of_mem x hy))

theorem mergeStep_get_ne (updates s : List (String × Json)) (p : String × Json)
    (k : String) (hk : k ≠ p.1) :
    objGet (mergeStep updates s p) k = objGet s k := by
  unfold mergeStep
  by_cases hc : (decide (p.1 = "hooks") && truthyOpt (objGet updates "hooks")) = true
  · rw [if_pos hc]
    have hph : p.1 = "hooks" := by
      simp only [Bool.and_eq_true, decide_eq_true_eq] at hc
      exact hc.1
    exact objGet_objSet_ne _ _ _ _ (hph ▸ hk)
  · rw [if_neg hc]
    exact objGet_objSet_ne _ _ _ _ hk

theorem mergeFold_get_notin (updates l : List (String × Json)) (s : List (String × Json))
    (k : String) (hk : k ∉ l.map Prod.fst) :
    objGet (l.foldl (mergeStep updates) s) k = objGet s k := by
  induction l generalizing s with
  | nil => rfl
  | cons p rest ih =>
    simp only [List.map_cons, List.mem_cons, not_or] at hk
    rw [List.foldl_cons, ih (mergeStep updates s p) hk.2,
      mergeStep_get_ne updates s p k hk.1]

theorem mergeHooksStep_get_ne (uh mh : List (String × Json)) (p : String × Json)
    (k : String) (hk : k ≠ p.1) :
    objGet (mergeHooksStep uh mh p) k = objGet mh k := by
  unfold mergeHooksStep
  by_cases hc : (decide (p.1 = "Stop") && truthyOpt (objGet uh "Stop")) = true
  · rw [if_pos hc]
    have hps : p.1 = "Stop" := by
      simp only [Bool.and_eq_true, decide_eq_true_eq] at hc
      exact hc.1
    exact objGet_objSet_ne _ _ _ _ (hps ▸ hk)
  · rw [if_neg hc]
    exact objGet_objSet_ne _ _ _ _ hk

theorem mergeHooksFold_get_notin (uh l mh : List (String × Json))
    (k : String) (hk : k ∉ l.map Prod.fst) :
    objGet (l.foldl (mergeHooksStep uh) mh) k = objGet mh k := by
  induction l generalizing mh with
  | nil => rfl
  | cons p rest ih =>
    simp only [List.map_cons, List.mem_cons, not_or] at hk
    rw [List.foldl_cons, ih (mergeHooksStep uh mh p) hk.2,
      mergeHooksStep_get_ne uh mh p k hk.1]

theorem nodup_split_right {α : Type} (l1 l2 : List (String × α)) (k : String) (v : α)
    (hnodup : ((l1 ++ (k, v) :: l2).map Prod.fst).Nodup) : k ∉ l2.map Prod.fst := by
  rw [List.map_append] at hnodup
  have h2 := hnodup.of_append_right
  rw [List.map_cons] at h2
  exact (List.nodup_cons.mp h2).1

theorem hooksBase_congr (s s' : List (String × Json))
    (h : objGet s "hooks" = objGet s' "hooks") : hooksBase s = hooksBase s' := by
  unfold hooksBase
  rw [h]

theorem stopBase_congr (s s' : List (String × Json))
    (h : objGet s "Stop" = objGet s' "Stop") : stopBase s = stopBase s' := by
  unfold stopBase
  rw [h]

theorem mergeStep_get_self_hooks (updates s : List (String × Json)) (v : Json)
    (hv : objGet updates "hooks" = some v) (htr : truthy v = true) :
    objGet (mergeStep updates s ("hooks", v)) "hooks" =
      some (.obj (mergeHooks (hooksBase s) (asObj v))) := by
  unfold mergeStep
  rw [hv, if_pos (by simp [truthyOpt, htr]), objGet_objSet_self]
  rfl

theorem mergeStep_get_self_other (updates s : List (String × Json)) (k : String)
    (v : Json) (hk : k ≠ "hooks") :
    objGet (mergeStep updates s (k, v)) k = some v := by
  unfold mergeStep
  rw [if_neg (by simp [hk])]
  exact objGet_objSet_self _ _ _

theorem mergeHooksStep_get_self_stop (uh mh : List (String × Json)) (v : Json)
    (hv : objGet uh "Stop" = some v) (htr : truthy v = true) :
    objGet (mergeHooksStep uh mh ("Stop", v)) "Stop" =
      some (.arr (mergeStop (stopBase mh) (asArr v))) := by
  unfold mergeHooksStep
  rw [hv, if_pos (by simp [truthyOpt, htr]), objGet_objSet_self]
  rfl

theorem mergeHooksStep_get_self_other (uh mh : List (String × Json)) (k : String)
    (v : Json) (hk : k ≠ "Stop") :
    objGet (mergeHooksStep uh mh (k, v)) k = some v := by
  unfold mergeHooksStep
  rw [if_neg (by simp [hk])]
  exact objGet_objSet_self _ _ _

theorem mergeConfig_get_hooks (existing updates uh : List (String × Json))
    (hnodup : (updates.map Prod.fst).Nodup)
    (hu : objGet updates "hooks" = some (.obj uh)) :
    objGet (mergeConfig existing updates) "hooks" =
      some (.obj (mergeHooks (hooksBase existing) uh)) := by
  obtain ⟨l1, l2, hl, hne⟩ := objGet_decomp updates "hooks" (.obj uh) hu
  have hl2 : "hooks" ∉ l2.map Prod.fst := nodup_split_right l1 l2 _ _ (hl ▸ hnodup)
  have hl1 : "hooks" ∉ l1.map Prod.fst := by
    intro hmem
    obtain ⟨q, hq, hq1⟩ := List.mem_map.mp hmem
    exact hne q hq hq1
  have hu' : objGet (l1 ++ ("hooks", Json.obj uh) :: l2) "hooks" = some (.obj uh) :=
    objGet_append_cons_self l1 l2 _ _ hne
  unfold mergeConfig
  conv_lhs => rw [hl]
  rw [List.foldl_append, List.foldl_cons, mergeFold_get_notin _ l2 _ _ hl2,
    mergeStep_get_self_hooks _ _ _ hu' rfl,
    hooksBase_congr _ existing (mergeFold_get_notin _ l1 existing "hooks" hl1)]
  rfl

theorem mergeConfig_get_key (existing updates : List (String × Json)) (k : String)
    (v : Json) (hnodup : (updates.map Prod.fst).Nodup)
    (hk : objGet updates k = some v) (hkh : k ≠ "hooks") :
    objGet (mergeConfig existing updates) k = some v := by
  obtain ⟨l1, l2, hl, hne⟩ := objGet_decomp updates k v hk
  have hl2 : k ∉ l2.map Prod.fst := nodup_split_right l1 l2 _ _ (hl ▸ hnodup)
  unfold mergeConfig
  conv_lhs => rw [hl]
  rw [List.foldl_append, List.foldl_cons, mergeFold_get_notin _ l2 _ _ hl2]
  exact mergeStep_get_self_other _ _ k v hkh

theorem mergeHooks_get_stop (mh uh : List (String × Json)) (incoming : List Json)
    (hnodup : (uh.map Prod.fst).Nodup)
    (hstop : objGet uh "Stop" = some (.arr incoming)) :
    objGet (mergeHooks mh uh) "Stop" =
      some (.arr (mergeStop (stopBase mh) incoming)) := by
  obtain ⟨l1, l2, hl, hne⟩ := objGet_decomp uh "Stop" (.arr incoming) hstop
  have hl2 : "Stop" ∉ l2.map Prod.fst := nodup_split_right l1 l2 _ _ (hl ▸ hnodup)
  have hl1 : "Stop" ∉ l1.map Prod.fst := by
    intro hmem
    obtain ⟨q, hq, hq1⟩ := List.mem_map.mp hmem
    exact hne q hq hq1
  have hu' : objGet (l1 ++ ("Stop", Json.arr incoming) :: l2) "Stop" =
      some (.arr incoming) :=
    objGet_append_cons_self l1 l2 _ _ hne
  unfold mergeHooks
  conv_lhs => rw [hl]
  rw [List.foldl_append, List.foldl_cons, mergeHooksFold_get_notin _ l2 _ _ hl2,
    mergeHooksStep_get_self_stop _ _ _ hu' rfl,
    stopBase_congr _ mh (mergeHooksFold_get_notin _ l1 mh "Stop" hl1)]
  rfl

theorem mergeHooks_get_key (mh uh : List (String × Json)) (ht : String) (v : Json)
    (hnodup : (uh.map Prod.fst).Nodup)
    (hk : objGet uh ht = some v) (hne2 : ht ≠ "Stop") :
    objGet (mergeHooks mh uh) ht = some v := by
  obtain ⟨l1, l2, hl, hne⟩ := objGet_decomp uh ht v hk
  have hl2 : ht ∉ l2.map Prod.fst := nodup_split_right l1 l2 _ _ (hl ▸ hnodup)
  unfold mergeHooks
  conv_lhs => rw [hl]
  rw [List.foldl_append, List.foldl_cons, mergeHooksFold_get_notin _ l2 _ _ hl2]
  exact mergeHooksStep_get_self_other _ _ ht v hne2

theorem findIdx?_some_decomp {α : Type} (p : α → Bool) (l : List α) (i : Nat)
    (h : List.findIdx? p l = some i) :
    ∃ l1 b l2, l = l1 ++ b :: l2 ∧ l1.length = i ∧ (∀ x ∈ l1, p x = false) ∧
      p b = true := by
  induction l generalizing i with
  | nil => cases h
  | cons a rest ih =>
    rw [List.findIdx?_cons] at h
    by_cases ha : p a = true
    · rw [if_pos ha] at h
      cases h
      exact ⟨[], a, rest, rfl, rfl, by simp, ha⟩
    · rw [if_neg ha, List.findIdx?_succ] at h
      obtain ⟨j, hj, rfl⟩ := Option.map_eq_some'.mp h
      obtain ⟨l1, b, l2, hl, hlen, hall, hb⟩ := ih j hj
      refine ⟨a :: l1, b, l2, by rw [hl]; rfl, by simp [hlen], ?_, hb⟩
      intro x hx
      rcases List.mem_cons.mp hx with rfl | hx'
      · exact Bool.not_eq_true _ ▸ ha
      · exact hall x hx'

theorem findIdx?_none_decomp {α : Type} (p : α → Bool) (l : List α)
    (h : List.findIdx? p l = none) : ∀ x ∈ l, p x = false := by
  induction l with
  | nil => intro x hx; cases hx
  | cons a rest ih =>
    rw [List.findIdx?_cons] at h
    by_cases ha : p a = true
    · rw [if_pos ha] at h
      cases h
    · rw [if_neg ha, List.findIdx?_succ] at h
      intro x hx
      rcases List.mem_cons.mp hx with rfl | hx'
      · exact Bool.not_eq_true _ ▸ ha
      · exact ih (Option.map_eq_none'.mp h) x hx'

theorem mergeStopStep_eq_some (acc : List Json) (x : Json) (i : Nat)
    (h : List.findIdx? (fun y => strictEqOpt (jsGet y "matcher") (jsGet x "matcher"))
      acc = some i) :
    mergeStopStep acc x = acc.set i x := by
  unfold mergeStopStep
  rw [h]

theorem mergeStopStep_eq_none (acc : List Json) (x : Json)
    (h : List.findIdx? (fun y => strictEqOpt (jsGet y "matcher") (jsGet x "matcher"))
      acc = none) :
    mergeStopStep acc x = acc ++ [x] := by
  unfold mergeStopStep
  rw [h]

theorem mergeStopStep_pred (e : Json) (m : String)
    (he : jsGet e "matcher" = some (.str m)) :
    (fun x => strictEqOpt (jsGet x "matcher") (jsGet e "matcher")) = matcherIs m := by
  funext x
  rw [he]
  rfl

theorem mergeStop_single_again (base0 : List Json) (e : Json) (m : String)
    (he : jsGet e "matcher" = some (.str m))
    (hcnt : base0.countP (matcherIs m) ≤ 1) :
    mergeStop (mergeStop base0 [e]) [e] = mergeStop base0 [e] ∧
      (mergeStop base0 [e]).countP (matcherIs m) = 1 := by
  have hpe : matcherIs m e = true := by
    unfold matcherIs
    rw [he]
    simp [strictEqOpt]
  have hpred := mergeStopStep_pred e m he
  have hstep1 : mergeStop base0 [e] = mergeStopStep base0 e := rfl
  cases hfind : List.findIdx? (matcherIs m) base0 with
  | some i =>
    obtain ⟨l1, b, l2, hdecomp, hlen, hall, hb⟩ := findIdx?_some_decomp _ _ _ hfind
    have h1 : mergeStop base0 [e] = l1 ++ e :: l2 := by
      rw [hstep1, mergeStopStep_eq_some base0 e i (by rw [hpred]; exact hfind),
        hdecomp, ← hlen, set_append_length]
    have h2 : mergeStop (l1 ++ e :: l2) [e] = l1 ++ e :: l2 := by
      show mergeStopStep (l1 ++ e :: l2) e = _
      rw [mergeStopStep_eq_some (l1 ++ e :: l2) e l1.length
        (by rw [hpred]; exact findIdx?_first _ l1 l2 e hall hpe), set_append_length]
    refine ⟨by rw [h1, h2], ?_⟩
    rw [h1]
    have hc0 : l1.countP (matcherIs m) = 0 :=
      List.countP_eq_zero.mpr (by intro a ha; simp [hall a ha])
    have hc2 : l2.countP (matcherIs m) = 0 := by
      rw [hdecomp, List.countP_append, List.countP_cons_of_pos _ _ hb, hc0] at hcnt
      omega
    rw [List.countP_append, List.countP_cons_of_pos _ _ hpe, hc0, hc2]
  | none =>
    have hall := findIdx?_none_decomp _ base0 hfind
    have h1 : mergeStop base0 [e] = base0 ++ e :: [] := by
      rw [hstep1, mergeStopStep_eq_none base0 e (by rw [hpred]; exact hfind)]
    have h2 : mergeStop (base0 ++ e :: []) [e] = base0 ++ e :: [] := by
      show mergeStopStep (base0 ++ e :: []) e = _
      rw [mergeStopStep_eq_some (base0 ++ e :: []) e base0.length
        (by rw [hpred]; exact findIdx?_first _ base0 [] e hall hpe), set_append_length]
    refine ⟨by rw [h1, h2], ?_⟩
    rw [h1, List.countP_append, List.countP_cons_of_pos _ _ hpe,
      List.countP_eq_zero.mpr (by intro a ha; simp [hall a ha])]
    rfl

/-- C2: `mergeConfig` is pure in the embedding (a Lean function cannot mutate its
argument, matching the source's deep clone of `existing`), and it is frame-respecting:
every top-level key of the existing document not named in `updates` keeps its value in
the result, and, when `updates` carries a hooks object, every event-name key not named
in `updates.hooks` keeps its value under the result's hooks object. -/
theorem mergeConfig_frame (existing updates : List (String × Json))
    (hnodup : (updates.map Prod.fst).Nodup)
    (hex : ∀ v, objGet existing "hooks" = some v → ∃ hf, v = Json.obj hf) :
    (∀ k, k ∉ updates.map Prod.fst →
      objGet (mergeConfig existing updates) k = objGet existing k) ∧
    (∀ uh, objGet updates "hooks" = some (Json.obj uh) →
      ∀ ev, ev ∉ uh.map Prod.fst →
        ∃ mh, objGet (mergeConfig existing updates) "hooks" = some (Json.obj mh) ∧
          objGet mh ev = hooksEvGet existing ev) := by
  constructor
  · intro k hk
    exact mergeFold_get_notin updates updates existing k hk
  · intro uh hu ev hev
    refine ⟨mergeHooks (hooksBase existing) uh,
      mergeConfig_get_hooks existing updates uh hnodup hu, ?_⟩
    have hframe : objGet (mergeHooks (hooksBase existing) uh) ev =
        objGet (hooksBase existing) ev :=
      mergeHooksFold_get_notin uh uh (hooksBase existing) ev hev
    rw [hframe]
    unfold hooksBase hooksEvGet
    cases hcase : objGet existing "hooks" with
    | none => rfl
    | some v =>
      obtain ⟨hf, rfl⟩ := hex v hcase
      rfl

theorem mergeConfig_frame_witness :
    objGet (mergeConfig
        [("other", Json.num 1),
          ("hooks", Json.obj [("Stop", Json.arr []), ("Notify", Json.num 2)])]
        [("hooks", Json.obj [("Stop", Json.arr [Json.obj [("matcher", Json.str "a")]])])])
      "other" = some (Json.num 1) ∧
    ∃ mh, objGet (mergeConfig
        [("other", Json.num 1),
          ("hooks", Json.obj [("Stop", Json.arr []), ("Notify", Json.num 2)])]
        [("hooks", Json.obj [("Stop", Json.arr [Json.obj [("matcher", Json.str "a")]])])])
      "hooks" = some (Json.obj mh) ∧
      objGet mh "Notify" = hooksEvGet
        [("other", Json.num 1),
          ("hooks", Json.obj [("Stop", Json.arr []), ("Notify", Json.num 2)])] "Notify" := by
  have h := mergeConfig_frame
    [("other", Json.num 1),
      ("hooks", Json.obj [("Stop", Json.arr []), ("Notify", Json.num 2)])]
    [("hooks", Json.obj [("Stop", Json.arr [Json.obj [("matcher", Json.str "a")]])])]
    (by decide)
    (fun v hv => ⟨[("Stop", Json.arr []), ("Notify", Json.num 2)],
      (Option.some.inj hv).symm⟩)
  exact ⟨(h.1 "other" (by decide)).trans rfl,
    h.2 [("Stop", Json.arr [Json.obj [("matcher", Json.str "a")]])] rfl "Notify" (by decide)⟩

/-- C3: merging a generator-shaped update -- `hooks.Stop` holding a single Hook Entry
with string matcher `m` -- is idempotent: the second merge returns the same document,
and when the existing document's Stop array has at most one entry with matcher `m`,
the merged Stop array has exactly one such entry. -/
theorem mergeConfig_idempotent (existing u uh : List (String × Json)) (e : Json)
    (m : String)
    (hnodup : (u.map Prod.fst).Nodup)
    (hnodupUH : (uh.map Prod.fst).Nodup)
    (hu : objGet u "hooks" = some (.obj uh))
    (hstop : objGet uh "Stop" = some (.arr [e]))
    (he : jsGet e "matcher" = some (.str m))
    (hex : ∀ v, objGet existing "hooks" = some v → ∃ hf, v = Json.obj hf)
    (hexStop : ∀ hf v, objGet existing "hooks" = some (Json.obj hf) →
      objGet hf "Stop" = some v → ∃ selems, v = Json.arr selems)
    (hone : ∀ hf selems, objGet existing "hooks" = some (Json.obj hf) →
      objGet hf "Stop" = some (Json.arr selems) → selems.countP (matcherIs m) ≤ 1) :
    mergeConfig (mergeConfig existing u) u = mergeConfig existing u ∧
    ∃ mh selems, objGet (mergeConfig existing u) "hooks" = some (Json.obj mh) ∧
      objGet mh "Stop" = some (Json.arr selems) ∧
      selems.countP (matcherIs m) = 1 := by
  have hRhooks : objGet (mergeConfig existing u) "hooks" =
      some (.obj (mergeHooks (hooksBase existing) uh)) :=
    mergeConfig_get_hooks existing u uh hnodup hu
  have hH1stop : objGet (mergeHooks (hooksBase existing) uh) "Stop" =
      some (.arr (mergeStop (stopBase (hooksBase existing)) [e])) :=
    mergeHooks_get_stop (hooksBase existing) uh [e] hnodupUH hstop
  have hcnt : (stopBase (hooksBase existing)).countP (matcherIs m) ≤ 1 := by
    unfold stopBase hooksBase
    cases hcase : objGet existing "hooks" with
    | none => simp [objGet]
    | some v =>
      obtain ⟨hf, rfl⟩ := hex v hcase
      simp only [truthy, if_true]
      cases hcase2 : objGet (asObj (Json.obj hf)) "Stop" with
      | none => simp
      | some w =>
        obtain ⟨selems, rfl⟩ := hexStop hf w hcase hcase2
        simp only [truthy, asArr, if_true]
        exact hone hf selems hcase hcase2
  obtain ⟨hidem, hcnt1⟩ :=
    mergeStop_single_again (stopBase (hooksBase existing)) e m he hcnt
  have hident : mergeHooks (mergeHooks (hooksBase existing) uh) uh =
      mergeHooks (hooksBase existing) uh := by
    show List.foldl (mergeHooksStep uh) _ uh = _
    apply foldl_id_of_steps
    intro q hq
    obtain ⟨ht, w⟩ := q
    by_cases hts : ht = "Stop"
    · subst hts
      have hw : objGet uh "Stop" = some w := objGet_of_mem_nodup uh "Stop" w hnodupUH hq
      have hweq : w = Json.arr [e] := by
        rw [hw] at hstop
        exact Option.some.inj hstop
      subst hweq
      unfold mergeHooksStep
      rw [if_pos (by rw [hstop]; simp [truthyOpt, truthy])]
      rw [hstop]
      have hsb : stopBase (mergeHooks (hooksBase existing) uh) =
          mergeStop (stopBase (hooksBase existing)) [e] := by
        unfold stopBase
        rw [hH1stop]
        rfl
      rw [hsb, show asArr ((some (Json.arr [e])).getD Json.null) = [e] from rfl, hidem]
      exact objSet_of_objGet _ _ _ hH1stop
    · have hw : objGet uh ht = some w := objGet_of_mem_nodup uh ht w hnodupUH hq
      have hgot : objGet (mergeHooks (hooksBase existing) uh) ht = some w :=
        mergeHooks_get_key (hooksBase existing) uh ht w hnodupUH hw hts
      unfold mergeHooksStep
      rw [if_neg (by simp [hts])]
      exact objSet_of_objGet _ _ _ hgot
  refine ⟨?_, mergeHooks (hooksBase existing) uh,
    mergeStop (stopBase (hooksBase existing)) [e], hRhooks, hH1stop, hcnt1⟩
  show List.foldl (mergeStep u) (mergeConfig existing u) u = mergeConfig existing u
  apply foldl_id_of_steps
  intro p hp
  obtain ⟨k, v⟩ := p
  by_cases hkh : k = "hooks"
  · subst hkh
    have hv : objGet u "hooks" = some v := objGet_of_mem_nodup u "hooks" v hnodup hp
    have hveq : v = Json.obj uh := by
      rw [hv] at hu
      exact Option.some.inj hu
    subst hveq
    unfold mergeStep
    rw [if_pos (by rw [hu]; simp [truthyOpt, truthy])]
    rw [hu]
    have hbR : hooksBase (mergeConfig existing u) = mergeHooks (hooksBase existing) uh := by
      unfold hooksBase
      rw [hRhooks]
      rfl
    rw [hbR, show asObj ((some (Json.obj uh)).getD Json.null) = uh from rfl, hident]
    exact objSet_of_objGet _ _ _ hRhooks
  · have hv : objGet u k = some v := objGet_of_mem_nodup u k v hnodup hp
    have hgot : objGet (mergeConfig existing u) k = some v :=
      mergeConfig_get_key existing u k v hnodup hv hkh
    unfold mergeStep
    rw [if_neg (by simp [hkh])]
    exact objSet_of_objGet _ _ _ hgot

theorem mergeConfig_idempotent_witness :
    mergeConfig (mergeConfig
        [("hooks", Json.obj [("Stop", Json.arr [Json.obj [("matcher", Json.str "b")]])])]
        [("hooks", Json.obj [("Stop", Json.arr [Json.obj
          [("matcher", Json.str "discord-notification"),
            ("hooks", Json.arr [Json.obj
              [("type", Json.str "command"), ("command", Json.str "script")]])]])])])
      [("hooks", Json.obj [("Stop", Json.arr [Json.obj
        [("matcher", Json.str "discord-notification"),
          ("hooks", Json.arr [Json.obj
            [("type", Json.str "command"), ("command", Json.str "script")]])]])])] =
      mergeConfig
        [("hooks", Json.obj [("Stop", Json.arr [Json.obj [("matcher", Json.str "b")]])])]
        [("hooks", Json.obj [("Stop", Json.arr [Json.obj
          [("matcher", Json.str "discord-notification"),
            ("hooks", Json.arr [Json.obj
              [("type", Json.str "command"), ("command", Json.str "script")]])]])])] ∧
    ∃ mh selems, objGet (mergeConfig
        [("hooks", Json.obj [("Stop", Json.arr [Json.obj [("matcher", Json.str "b")]])])]
        [("hooks", Json.obj [("Stop", Json.arr [Json.obj
          [("matcher", Json.str "discord-notification"),
            ("hooks", Json.arr [Json.obj
              [("type", Json.str "command"), ("command", Json.str "script")]])]])])])
      "hooks" = some (Json.obj mh) ∧
      objGet mh "Stop" = some (Json.arr selems) ∧
      selems.countP (matcherIs "discord-notification") = 1 := by
  refine mergeConfig_idempotent
    [("hooks", Json.obj [("Stop", Json.arr [Json.obj [("matcher", Json.str "b")]])])]
    [("hooks", Json.obj [("Stop", Json.arr [Json.obj
      [("matcher", Json.str "discord-notification"),
        ("hooks", Json.arr [Json.obj
          [("type", Json.str "command"), ("command", Json.str "script")]])]])])]
    [("Stop", Json.arr [Json.obj
      [("matcher", Json.str "discord-notification"),
        ("hooks", Json.arr [Json.obj
          [("type", Json.str "command"), ("command", Json.str "script")]])]])]
    (Json.obj [("matcher", Json.str "discord-notification"),
      ("hooks", Json.arr [Json.obj
        [("type", Json.str "command"), ("command", Json.str "script")]])])
    "discord-notification" (by decide) (by decide) rfl rfl rfl
    (fun v hv => ⟨[("Stop", Json.arr [Json.obj [("matcher", Json.str "b")]])],
      (Option.some.inj hv).symm⟩)
    (fun hf v h1 h2 => by
      have hhf := Json.obj.inj (Option.some.inj h1)
      subst hhf
      exact ⟨[Json.obj [("matcher", Json.str "b")]], (Option.some.inj h2).symm⟩)
    (fun hf selems h1 h2 => by
      have hhf := Json.obj.inj (Option.some.inj h1)
      subst hhf
      have hsel := Json.arr.inj (Option.some.inj h2)
      subst hsel
      decide)

/-- A file system modelled as a finite map from paths to file contents. -/
def FS : Type := List (String × String)

/-- `FileSystemServiceImpl.fileExists` (src/utils/file.ts:36-43): an `fs.access`
success; never throws. -/
def fileExistsFS (fs : FS) (p : String) : Bool := (objGet fs p).isSome

/-- Remove a path from the file system (used to model a failed write attempt that
leaves no file behind). -/
def delFS : FS → String → FS
  | [], _ => []
  | (k, v) :: rest, p => if k = p then delFS rest p else (k, v) :: delFS rest p

theorem objGet_delFS_ne (l : FS) (p k : String) (h : k ≠ p) :
    objGet (delFS l p) k = objGet l k := by
  induction l with
  | nil => rfl
  | cons q rest ih =>
    obtain ⟨k0, v0⟩ := q
    by_cases h0 : k0 = p
    · subst h0
      simp only [delFS, if_pos rfl, objGet, if_neg (fun hh : k0 = k => h (hh ▸ rfl))]
      exact ih
    · simp only [delFS, if_neg h0, objGet]
      by_cases h1 : k0 = k
      · simp [h1]
      · simp [h1, ih]

/-- `FileSystemServiceImpl.createBackup` (src/utils/file.ts:91-124), reached after
the caller's existence check: copy the content at `filePath` to
`filePath + ".backup." + timestamp`, the timestamp being the ISO-8601 instant with
`:` and `.` replaced by `-`; returns the new file system and the backup path. -/
def createBackupFS (fs : FS) (filePath timestamp : String) : FS × String :=
  let backupPath := filePath ++ ".backup." ++ timestamp
  (objSet fs backupPath ((objGet fs filePath).getD ""), backupPath)

/-- `fileUtils.safeWriteJsonFile` (src/utils/file.ts:187-210). External effects are
oracles: `writeOk` says whether the underlying `writeJsonFile` call succeeds;
`failState` is the content left at `path` by a failed write attempt (`none` = no
file left); `restoreOk` says whether the best-effort `copyFile(backupPath, path)`
restore succeeds. `content` stands for `JSON.stringify(data, null, 2)`. Returns the
resulting file system and whether the call succeeded -- a failed write re-throws the
original error even when the restore also fails. -/
def safeWriteJsonFile (fs : FS) (path content timestamp : String)
    (writeOk : Bool) (failState : Option String) (restoreOk : Bool) : FS × Bool :=
  let step1 : FS × Option String :=
    if fileExistsFS fs path then
      let r := createBackupFS fs path timestamp
      (r.1, some r.2)
    else (fs, none)
  let fs1 := step1.1
  let backupPath := step1.2
  if writeOk then
    (objSet fs1 path content, true)
  else
    let fs2 := match failState with
      | some c => objSet fs1 path c
      | none => delFS fs1 path
    match backupPath with
    | some bp =>
      if fileExistsFS fs2 bp then
        if restoreOk then (objSet fs2 path ((objGet fs2 bp).getD ""), false)
        else (fs2, false)
      else (fs2, false)
    | none => (fs2, false)

theorem backupPath_ne (path timestamp : String) :
    path ++ ".backup." ++ timestamp ≠ path := by
  intro h
  have hlen := congrArg String.length h
  rw [String.length_append, String.length_append] at hlen
  have h8 : ".backup.".length = 8 := rfl
  omega

/-- C4: when the file at `path` exists, `safeWriteJsonFile` first copies its content
to the timestamped backup path; if the underlying write then fails, the call reports
the original failure regardless of the restore outcome, the backup still holds the
pre-call content, and when the best-effort restore succeeds the file again holds its
pre-call content. -/
theorem safeWriteJsonFile_backup_restore (fs : FS)
    (path content timestamp c0 : String)
    (writeOk : Bool) (failState : Option String) (restoreOk : Bool)
    (hexists : objGet fs path = some c0) :
    objGet (safeWriteJsonFile fs path content timestamp writeOk failState restoreOk).1
      (path ++ ".backup." ++ timestamp) = some c0 ∧
    (writeOk = false →
      (safeWriteJsonFile fs path content timestamp writeOk failState restoreOk).2
        = false ∧
      (restoreOk = true →
        objGet (safeWriteJsonFile fs path content timestamp writeOk failState
          restoreOk).1 path = some c0)) := by
  have hbpne : path ++ ".backup." ++ timestamp ≠ path := backupPath_ne path timestamp
  have hpne : path ≠ path ++ ".backup." ++ timestamp := Ne.symm hbpne
  have h1 : ∀ (l : FS) (v : String),
      objGet (objSet l path v) (path ++ ".backup." ++ timestamp) =
        objGet l (path ++ ".backup." ++ timestamp) :=
    fun l v => objGet_objSet_ne l path _ v hbpne
  have h2 : ∀ (l : FS) (v : String),
      objGet (objSet l (path ++ ".backup." ++ timestamp) v) path = objGet l path :=
    fun l v => objGet_objSet_ne l _ path v hpne
  have h3 : ∀ l : FS,
      objGet (delFS l path) (path ++ ".backup." ++ timestamp) =
        objGet l (path ++ ".backup." ++ timestamp) :=
    fun l => objGet_delFS_ne l path _ hbpne
  cases writeOk <;> cases failState <;> cases restoreOk <;>
    simp [safeWriteJsonFile, createBackupFS, fileExistsFS, hexists, h1, h2, h3,
      objGet_objSet_self]

theorem safeWriteJsonFile_backup_restore_witness :
    objGet (safeWriteJsonFile [("cfg.json", "old")] "cfg.json" "new" "T"
        false (some "junk") true).1
      ("cfg.json" ++ ".backup." ++ "T") = some "old" ∧
    (false = false →
      (safeWriteJsonFile [("cfg.json", "old")] "cfg.json" "new" "T"
        false (some "junk") true).2 = false ∧
      (true = true →
        objGet (safeWriteJsonFile [("cfg.json", "old")] "cfg.json" "new" "T"
          false (some "junk") true).1 "cfg.json" = some "old")) :=
  safeWriteJsonFile_backup_restore [("cfg.json", "old")] "cfg.json" "new" "T" "old"
    false (some "junk") true rfl

/-- `typeof x === 'object'` in JS: true for objects, arrays and `null`. -/
def typeofIsObject : Json → Bool
  | .obj _ => true
  | .arr _ => true
  | .null => true
  | _ => false

def isNullJson : Json → Bool
  | .null => true
  | _ => false

/-- Whether a possibly-undefined value is the string `"command"`
(the `type === 'command'` check). -/
def isStrCommand : Option Json → Bool
  | some (.str t) => decide (t = "command")
  | _ => false

/-- Whether a possibly-undefined value is a string (`typeof x === 'string'`). -/
def isSomeStr : Option Json → Bool
  | some (.str _) => true
  | _ => false

/-- The inner forEach over an individual Stop hook's `hooks` array
(src/services/config.ts:210-233), carrying the entry index and action index for the
error messages. -/
def validateActions (i : Nat) : Nat → List Json → Except (ErrorType × String) Unit
  | _, [] => .ok ()
  | j, a :: rest =>
    if !typeofIsObject a || isNullJson a then
      .error (.jsonParseError, "Hook at index " ++ toString i ++ "." ++ toString j ++
        " must be an object")
    else if !isStrCommand (jsGet a "type") then
      .error (.jsonParseError, "Hook at index " ++ toString i ++ "." ++ toString j ++
        " must have type command")
    else if !isSomeStr (jsGet a "command") then
      .error (.jsonParseError, "Hook at index " ++ toString i ++ "." ++ toString j ++
        " must have a string command")
    else
      validateActions i (j + 1) rest

/-- The forEach over `hooks.Stop` (src/services/config.ts:185-234). -/
def validateStopHooks : Nat → List Json → Except (ErrorType × String) Unit
  | _, [] => .ok ()
  | i, h :: rest =>
    if !typeofIsObject h || isNullJson h then
      .error (.jsonParseError, "Stop hook at index " ++ toString i ++
        " must be an object")
    else if !isSomeStr (jsGet h "matcher") then
      .error (.jsonParseError, "Stop hook at index " ++ toString i ++
        " must have a string matcher")
    else
      match jsGet h "hooks" with
      | some (.arr actions) => do
        validateActions i 0 actions
        validateStopHooks (i + 1) rest
      | _ => .error (.jsonParseError, "Stop hook at index " ++ toString i ++
          " must have a hooks array")

/-- `ConfigManagerImpl.validateConfig` (src/services/config.ts:156-237). Note that
`typeof config === 'object'` is also true for arrays, and that among the event-name
keys only `hooks.Stop` is inspected. -/
def validateConfig (config : Json) : Except (ErrorType × String) Unit :=
  if isNullJson config then
    .error (.jsonParseError, "Configuration cannot be null or undefined")
  else if !typeofIsObject config then
    .error (.jsonParseError, "Configuration must be an object")
  else
    match jsGet config "hooks" with
    | none => .ok ()
    | some hooks =>
      if !typeofIsObject hooks || isNullJson hooks then
        .error (.jsonParseError, "hooks property must be an object")
      else
        match jsGet hooks "Stop" with
        | none => .ok ()
        | some (.arr entries) => validateStopHooks 0 entries
        | some _ => .error (.jsonParseError, "hooks.Stop must be an array")

/-- The observable state of the configuration file as `loadConfig` sees it: absent,
present but not parseable as JSON, or present and parsing to a value. -/
inductive FileState where
  | absent
  | invalidJson
  | content (j : Json)

/-- `ConfigManagerImpl.loadConfig` (src/services/config.ts:24-49): an absent file
yields `{}` without error; a JSON parse failure surfaces as `JSON_PARSE_ERROR`
(`errorHandler.wrapJsonError`); a parsed document is shape-validated and returned. -/
def loadConfig (file : FileState) : Except (ErrorType × String) Json :=
  match file with
  | .absent => .ok (.obj [])
  | .invalidJson => .error (.jsonParseError, "Invalid JSON in configuration file")
  | .content config => (validateConfig config).map (fun _ => config)

/-- One Action Entry as the code accepts it: a non-null value of JS object type with
`type === "command"` and a string `command`. -/
def codeActionOk (a : Json) : Bool :=
  typeofIsObject a && !isNullJson a && isStrCommand (jsGet a "type") &&
    isSomeStr (jsGet a "command")

/-- One Stop Hook Entry as the code accepts it: a non-null value of JS object type
with a string `matcher` and an array `hooks` of accepted Action Entries. -/
def codeStopEntryOk (h : Json) : Bool :=
  typeofIsObject h && !isNullJson h && isSomeStr (jsGet h "matcher") &&
    (match jsGet h "hooks" with
     | some (.arr actions) => actions.all codeActionOk
     | _ => false)

/-- The document shape the code actually accepts: non-null with JS typeof object
(so top-level arrays pass); `hooks`, if present, non-null with typeof object;
`hooks.Stop`, if present, an array of accepted Stop entries; every other event-name
value is unchecked. -/
def codeDocOk (j : Json) : Bool :=
  typeofIsObject j && !isNullJson j &&
    (match jsGet j "hooks" with
     | none => true
     | some hooks =>
       typeofIsObject hooks && !isNullJson hooks &&
         (match jsGet hooks "Stop" with
          | none => true
          | some (.arr entries) => entries.all codeStopEntryOk
          | some _ => false))

/-- One Action Entry as the specification words it. -/
def specActionOk (a : Json) : Bool :=
  match a with
  | .obj _ => isStrCommand (jsGet a "type") && isSomeStr (jsGet a "command")
  | _ => false

/-- One Hook Entry as the specification words it. -/
def specHookEntryOk (h : Json) : Bool :=
  match h with
  | .obj _ => isSomeStr (jsGet h "matcher") &&
      (match jsGet h "hooks" with
       | some (.arr actions) => actions.all specActionOk
       | _ => false)
  | _ => false

/-- The document shape invariant exactly as the specification claims it: a JSON
object (not array/scalar/null); `hooks`, if present, an object; each event-name
value, if present, an array of Hook Entries. -/
def specDocumentOk (j : Json) : Bool :=
  match j with
  | .obj fields =>
    (match objGet fields "hooks" with
     | none => true
     | some (.obj hf) => hf.all (fun p =>
         match p.2 with
         | .arr entries => entries.all specHookEntryOk
         | _ => false)
     | some _ => false)
  | _ => false

theorem validateActions_ok_iff (i : Nat) (l : List Json) : ∀ j,
    (validateActions i j l).isOk = true ↔ l.all codeActionOk = true := by
  induction l with
  | nil =>
    intro j
    simp [validateActions, Except.isOk, Except.toBool]
  | cons a rest ih =>
    intro j
    rw [List.all_cons, Bool.and_eq_true]
    unfold validateActions codeActionOk
    by_cases hob : (!typeofIsObject a || isNullJson a) = true
    · rw [if_pos hob]
      simp only [Bool.or_eq_true, Bool.not_eq_true'] at hob
      constructor
      · intro hc
        simp [Except.isOk, Except.toBool] at hc
      · rintro ⟨hca, -⟩
        simp only [Bool.and_eq_true, Bool.not_eq_true'] at hca
        rcases hob with h | h
        · rw [hca.1.1.1] at h
          cases h
        · rw [hca.1.1.2] at h
          cases h
    · rw [if_neg hob]
      simp only [Bool.or_eq_true, Bool.not_eq_true', not_or, Bool.not_eq_false,
        Bool.not_eq_true] at hob
      by_cases hty : isStrCommand (jsGet a "type") = true
      · rw [if_neg (by simp [hty])]
        by_cases hcmd : isSomeStr (jsGet a "command") = true
        · rw [if_neg (by simp [hcmd])]
          rw [ih (j + 1)]
          constructor
          · intro hr
            exact ⟨by simp [hob.1, hob.2, hty, hcmd], hr⟩
          · rintro ⟨-, hr⟩
            exact hr
        · rw [Bool.not_eq_true] at hcmd
          rw [if_pos (by simp [hcmd])]
          constructor
          · intro hc
            simp [Except.isOk, Except.toBool] at hc
          · rintro ⟨hca, -⟩
            simp only [Bool.and_eq_true] at hca
            rw [hcmd] at hca
            exact absurd hca.2 (by simp)
      · rw [Bool.not_eq_true] at hty
        rw [if_pos (by simp [hty])]
        constructor
        · intro hc
          simp [Except.isOk, Except.toBool] at hc
        · rintro ⟨hca, -⟩
          simp only [Bool.and_eq_true] at hca
          rw [hty] at hca
          exact absurd hca.1.2 (by simp)

theorem validateStopHooks_ok_iff (l : List Json) : ∀ i,
    (validateStopHooks i l).isOk = true ↔ l.all codeStopEntryOk = true := by
  induction l with
  | nil =>
    intro i
    simp [validateStopHooks, Except.isOk, Except.toBool]
  | cons h rest ih =>
    intro i
    rw [List.all_cons, Bool.and_eq_true]
    unfold validateStopHooks codeStopEntryOk
    by_cases hob : (!typeofIsObject h || isNullJson h) = true
    · rw [if_pos hob]
      simp only [Bool.or_eq_true, Bool.not_eq_true'] at hob
      constructor
      · intro hc
        simp [Except.isOk, Except.toBool] at hc
      · rintro ⟨hch, -⟩
        simp only [Bool.and_eq_true, Bool.not_eq_true'] at hch
        rcases hob with h' | h'
        · rw [hch.1.1.1] at h'
          cases h'
        · rw [hch.1.1.2] at h'
          cases h'
    · rw [if_neg hob]
      simp only [Bool.or_eq_true, Bool.not_eq_true', not_or, Bool.not_eq_false,
        Bool.not_eq_true] at hob
      by_cases hm : isSomeStr (jsGet h "matcher") = true
      · rw [if_neg (by simp [hm])]
        cases hhk : jsGet h "hooks" with
        | none =>
          constructor
          · intro hc
            simp [Except.isOk, Except.toBool] at hc
          · rintro ⟨hch, -⟩
            simp only [Bool.and_eq_true] at hch
            exact absurd hch.2 (by simp)
        | some v =>
          cases v with
          | arr actions =>
            constructor
            · intro hc
              have hc' : ((validateActions i 0 actions).bind
                  (fun _ => validateStopHooks (i + 1) rest)).isOk = true := hc
              obtain ⟨hva, hrest⟩ : (validateActions i 0 actions).isOk = true ∧
                  (validateStopHooks (i + 1) rest).isOk = true := by
                cases hva2 : validateActions i 0 actions with
                | error e =>
                  rw [hva2] at hc'
                  simp [Except.bind, Except.isOk, Except.toBool] at hc'
                | ok u =>
                  rw [hva2] at hc'
                  simp only [Except.bind] at hc'
                  exact ⟨rfl, hc'⟩
              refine ⟨?_, (ih (i + 1)).mp hrest⟩
              simp only [Bool.and_eq_true]
              exact ⟨⟨⟨hob.1, by simp [hob.2]⟩, hm⟩,
                (validateActions_ok_iff i actions 0).mp hva⟩
            · rintro ⟨hch, hrest⟩
              simp only [Bool.and_eq_true] at hch
              have hva : (validateActions i 0 actions).isOk = true :=
                (validateActions_ok_iff i actions 0).mpr hch.2
              show ((validateActions i 0 actions).bind
                (fun _ => validateStopHooks (i + 1) rest)).isOk = true
              cases hva2 : validateActions i 0 actions with
              | error e =>
                rw [hva2] at hva
                simp [Except.isOk, Except.toBool] at hva
              | ok u =>
                simp only [Except.bind]
                exact (ih (i + 1)).mpr hrest
          | null =>
            constructor
            · intro hc
              simp [Except.isOk, Except.toBool] at hc
            · rintro ⟨hch, -⟩
              simp only [Bool.and_eq_true] at hch
              exact absurd hch.2 (by simp)
          | bool b =>
            constructor
            · intro hc
              simp [Except.isOk, Except.toBool] at hc
            · rintro ⟨hch, -⟩
              simp only [Bool.and_eq_true] at hch
              exact absurd hch.2 (by simp)
          | num n =>
            constructor
            · intro hc
              simp [Except.isOk, Except.toBool] at hc
            · rintro ⟨hch, -⟩
              simp only [Bool.and_eq_true] at hch
              exact absurd hch.2 (by simp)
          | str s =>
            constructor
            · intro hc
              simp [Except.isOk, Except.toBool] at hc
            · rintro ⟨hch, -⟩
              simp only [Bool.and_eq_true] at hch
              exact absurd hch.2 (by simp)
          | obj f =>
            constructor
            · intro hc
              simp [Except.isOk, Except.toBool] at hc
            · rintro ⟨hch, -⟩
              simp only [Bool.and_eq_true] at hch
              exact absurd hch.2 (by simp)
      · rw [Bool.not_eq_true] at hm
        rw [if_pos (by simp [hm])]
        constructor
        · intro hc
          simp [Except.isOk, Except.toBool] at hc
        · rintro ⟨hch, -⟩
          simp only [Bool.and_eq_true] at hch
          rw [hm] at hch
          exact absurd hch.1.2 (by simp)

theorem validateConfig_ok_iff (config : Json) :
    (validateConfig config).isOk = true ↔ codeDocOk config = true := by
  unfold validateConfig codeDocOk
  by_cases hn : isNullJson config = true
  · rw [if_pos hn]
    constructor
    · intro hc
      simp [Except.isOk, Except.toBool] at hc
    · intro hc
      simp only [Bool.and_eq_true, Bool.not_eq_true'] at hc
      rw [hn] at hc
      exact absurd hc.1.2 (by simp)
  · rw [Bool.not_eq_true] at hn
    rw [if_neg (by simp [hn])]
    by_cases ht : typeofIsObject config = true
    · rw [if_neg (by simp [ht])]
      cases hhx : jsGet config "hooks" with
      | none =>
        simp [Except.isOk, Except.toBool, ht, hn]
      | some hooks =>
        simp only []
        by_cases hh1 : (!typeofIsObject hooks || isNullJson hooks) = true
        · rw [if_pos hh1]
          simp only [Bool.or_eq_true, Bool.not_eq_true'] at hh1
          constructor
          · intro hc
            simp [Except.isOk, Except.toBool] at hc
          · intro hc
            simp only [Bool.and_eq_true, Bool.not_eq_true'] at hc
            rcases hh1 with h' | h'
            · rw [hc.2.1.1] at h'
              cases h'
            · rw [hc.2.1.2] at h'
              cases h'
        · rw [if_neg hh1]
          simp only [Bool.or_eq_true, Bool.not_eq_true', not_or, Bool.not_eq_false,
            Bool.not_eq_true] at hh1
          cases hhs : jsGet hooks "Stop" with
          | none =>
            simp [Except.isOk, Except.toBool, ht, hn, hh1.1, hh1.2]
          | some stop =>
            cases stop with
            | arr entries =>
              rw [validateStopHooks_ok_iff entries 0]
              simp [ht, hn, hh1.1, hh1.2]
            | null => simp [Except.isOk, Except.toBool]
            | bool b => simp [Except.isOk, Except.toBool]
            | num n2 => simp [Except.isOk, Except.toBool]
            | str s => simp [Except.isOk, Except.toBool]
            | obj f => simp [Except.isOk, Except.toBool]
    · rw [Bool.not_eq_true] at ht
      rw [if_pos (by simp [ht])]
      simp [Except.isOk, Except.toBool, ht]

theorem validateActions_err_kind (i : Nat) (l : List Json) : ∀ j e msg,
    validateActions i j l = .error (e, msg) → e = .jsonParseError := by
  induction l with
  | nil =>
    intro j e msg h
    cases h
  | cons a rest ih =>
    intro j e msg h
    unfold validateActions at h
    by_cases h1 : (!typeofIsObject a || isNullJson a) = true
    · rw [if_pos h1] at h
      cases h
      rfl
    · rw [if_neg h1] at h
      by_cases h2 : (!isStrCommand (jsGet a "type")) = true
      · rw [if_pos h2] at h
        cases h
        rfl
      · rw [if_neg h2] at h
        by_cases h3 : (!isSomeStr (jsGet a "command")) = true
        · rw [if_pos h3] at h
          cases h
          rfl
        · rw [if_neg h3] at h
          exact ih (j + 1) e msg h

theorem validateStopHooks_err_kind (l : List Json) : ∀ i e msg,
    validateStopHooks i l = .error (e, msg) → e = .jsonParseError := by
  induction l with
  | nil =>
    intro i e msg h
    cases h
  | cons hk rest ih =>
    intro i e msg h
    unfold validateStopHooks at h
    by_cases h1 : (!typeofIsObject hk || isNullJson hk) = true
    · rw [if_pos h1] at h
      cases h
      rfl
    · rw [if_neg h1] at h
      by_cases h2 : (!isSomeStr (jsGet hk "matcher")) = true
      · rw [if_pos h2] at h
        cases h
        rfl
      · rw [if_neg h2] at h
        cases hhk : jsGet hk "hooks" with
        | none =>
          rw [hhk] at h
          cases h
          rfl
        | some v =>
          rw [hhk] at h
          cases v with
          | arr actions =>
            have h' : ((validateActions i 0 actions).bind
                (fun _ => validateStopHooks (i + 1) rest)) = .error (e, msg) := h
            cases hva : validateActions i 0 actions with
            | error e2 =>
              rw [hva] at h'
              simp only [Except.bind] at h'
              obtain ⟨ek, em⟩ := e2
              cases h'
              exact validateActions_err_kind i actions 0 _ _ hva
            | ok u =>
              rw [hva] at h'
              simp only [Except.bind] at h'
              exact ih (i + 1) e msg h'
          | null =>
            cases h
            rfl
          | bool b =>
            cases h
            rfl
          | num n =>
            cases h
            rfl
          | str s =>
            cases h
            rfl
          | obj f =>
            cases h
            rfl

theorem validateConfig_err_kind (config : Json) : ∀ e msg,
    validateConfig config = .error (e, msg) → e = .jsonParseError := by
  intro e msg h
  unfold validateConfig at h
  by_cases hn : isNullJson config = true
  · rw [if_pos hn] at h
    cases h
    rfl
  · rw [if_neg hn] at h
    by_cases ht : (!typeofIsObject config) = true
    · rw [if_pos ht] at h
      cases h
      rfl
    · rw [if_neg ht] at h
      cases hhx : jsGet config "hooks" with
      | none =>
        rw [hhx] at h
        cases h
      | some hooks =>
        rw [hhx] at h
        simp only [] at h
        by_cases hh1 : (!typeofIsObject hooks || isNullJson hooks) = true
        · rw [if_pos hh1] at h
          cases h
          rfl
        · rw [if_neg hh1] at h
          cases hhs : jsGet hooks "Stop" with
          | none =>
            rw [hhs] at h
            cases h
          | some stop =>
            rw [hhs] at h
            cases stop with
            | arr entries => exact validateStopHooks_err_kind entries 0 e msg h
            | null =>
              cases h
              rfl
            | bool b =>
              cases h
              rfl
            | num n =>
              cases h
              rfl
            | str s =>
              cases h
              rfl
            | obj f =>
              cases h
              rfl

/-- C5 counterexample: the claim requires a top-level JSON array to raise
`JsonParseError`, but `typeof [] === 'object'` in JS, so the array passes the
object check and `loadConfig` returns it unchanged while the claimed shape
invariant rejects it. -/
theorem loadConfig_accepts_array_counterexample :
    loadConfig (.content (.arr [])) = .ok (.arr []) ∧
      specDocumentOk (.arr []) = false :=
  ⟨rfl, rfl⟩

theorem isOk_map {ε α β : Type} (f : α → β) (x : Except ε α) :
    (x.map f).isOk = x.isOk := by
  cases x <;> rfl

/-- C5 amended: `loadConfig` is total over file states with a raises-iff contract:
an absent file yields `{}` without error; it raises exactly on malformed JSON or
when the parsed value fails the shape check the code actually performs (`codeDocOk`:
the top-level value and `hooks` only need JS typeof object, so arrays pass; only
`hooks.Stop` among the event-name keys is validated, as an array of non-null objects
with string `matcher` and an array `hooks` of `type === "command"` / string
`command` actions); every raised error has kind `JSON_PARSE_ERROR`; an accepted
document is returned unchanged. -/
theorem loadConfig_total_raises_iff :
    loadConfig .absent = .ok (.obj []) ∧
    (∃ msg, loadConfig .invalidJson = .error (.jsonParseError, msg)) ∧
    (∀ j, (loadConfig (.content j)).isOk = true ↔ codeDocOk j = true) ∧
    (∀ j, codeDocOk j = true → loadConfig (.content j) = .ok j) ∧
    (∀ file e msg, loadConfig file = .error (e, msg) → e = .jsonParseError) := by
  refine ⟨rfl, ⟨_, rfl⟩, ?_, ?_, ?_⟩
  · intro j
    show (Except.map (fun _ => j) (validateConfig j)).isOk = true ↔ codeDocOk j = true
    rw [isOk_map]
    exact validateConfig_ok_iff j
  · intro j hj
    have hv2 := (validateConfig_ok_iff j).mpr hj
    show Except.map (fun _ => j) (validateConfig j) = .ok j
    cases hv : validateConfig j with
    | error e =>
      rw [hv] at hv2
      simp [Except.isOk, Except.toBool] at hv2
    | ok u => rfl
  · intro file e msg h
    cases file with
    | absent => cases h
    | invalidJson =>
      cases h
      rfl
    | content j =>
      have h' : Except.map (fun _ => j) (validateConfig j) = .error (e, msg) := h
      cases hv : validateConfig j with
      | error e2 =>
        rw [hv] at h'
        simp only [Except.map] at h'
        obtain ⟨ek, em⟩ := e2
        cases h'
        exact validateConfig_err_kind j _ _ hv
      | ok u =>
        rw [hv] at h'
        simp [Except.map] at h'

/-- C8: `sanitizeInput` maps every non-string runtime value to the empty string, and
every string to the result of removing the stripped control characters (newline and
tab preserved), then trimming leading and trailing JS whitespace, then truncating to
at most 2048 characters, in that order. -/
theorem sanitizeInput_spec :
    (∀ j : Json, (∀ s, j ≠ Json.str s) → sanitizeInputValue j = "") ∧
    (∀ s : String, sanitizeInput s =
      ⟨(jsTrim (s.data.filter (fun c => !isStrippedControl c))).take 2048⟩) := by
  constructor
  · intro j hj
    cases j with
    | str s => exact absurd rfl (hj s)
    | null => rfl
    | bool b => rfl
    | num n => rfl
    | arr l => rfl
    | obj f => rfl
  · intro s
    by_cases hs : s = ""
    · subst hs
      rfl
    · unfold sanitizeInput
      rw [if_neg hs]
      simp only []
      congr 1
      by_cases hlen : (jsTrim (s.data.filter (fun c => !isStrippedControl c))).length > 2048
      · rw [if_pos hlen]
      · rw [if_neg hlen, List.take_of_length_le (Nat.le_of_not_lt hlen)]

theorem sanitizeInput_spec_witness :
    sanitizeInputValue Json.null = "" ∧
    sanitizeInput " a\x00b " =
      ⟨(jsTrim ((" a\x00b " : String).data.filter
        (fun c => !isStrippedControl c))).take 2048⟩ :=
  ⟨sanitizeInput_spec.1 Json.null (fun _ h => Json.noConfusion h),
    sanitizeInput_spec.2 " a\x00b "⟩

theorem validateNtfyTopic_accepts_exactly_witness :
    specTopicOk (sanitizeInput "abc") :=
  (validateNtfyTopic_accepts_exactly.1 "abc").mp (by decide)

theorem validateDiscordUrl_accepts_exactly_witness :
    specWebhookOk (sanitizeInput "https://discord.com/api/webhooks/12/ab") :=
  (validateDiscordUrl_accepts_exactly.1 "https://discord.com/api/webhooks/12/ab").mp
    (by decide)

theorem loadConfig_total_raises_iff_witness :
    loadConfig (.content (.obj [])) = .ok (.obj []) :=
  loadConfig_total_raises_iff.2.2.2.1 (.obj []) rfl

/-- node `path.join` of nonempty normalized segments; empty segments are skipped as
`path.join` does. -/
def joinGo : List String → String
  | [] => ""
  | [x] => x
  | x :: xs => x ++ "/" ++ joinGo xs

def joinPath (xs : List String) : String :=
  joinGo (xs.filter (fun s => s != ""))

/-- `ConfigManagerImpl.getConfigPath` (src/services/config.ts:94-99), parameterized
by the ambient `process.cwd()` and `os.homedir()` results. -/
def ConfigManagerImpl.getConfigPath (cwd home : String) (isGlobal : Bool) : String :=
  if isGlobal then joinPath [home, ".claude", "settings.json"]
  else joinPath [cwd, ".claude", "settings.json"]

/-- `PathResolverImpl.getHomeDirectory` (src/utils/paths.ts:54-74): `none` models an
`os.homedir()` throw, `some ""` an empty result; both are surfaced as
`FILE_PERMISSION_ERROR`. -/
def PathResolverImpl.getHomeDirectory (home : Option String) :
    Except (ErrorType × String) String :=
  match home with
  | none => .error (.filePermissionError, "Failed to get home directory")
  | some h =>
    if h = "" then .error (.filePermissionError, "Unable to determine home directory")
    else .ok h

/-- `PathResolverImpl.getConfigDirectory` (src/utils/paths.ts:36-41). -/
def PathResolverImpl.getConfigDirectory (cwd : String) (home : Option String)
    (isGlobal : Bool) : Except (ErrorType × String) String :=
  if isGlobal then
    (PathResolverImpl.getHomeDirectory home).map (fun h => joinPath [h, ".claude"])
  else
    .ok (joinPath [cwd, ".claude"])

/-- `PathResolverImpl.getConfigPath` (src/utils/paths.ts:28-31). -/
def PathResolverImpl.getConfigPath (cwd : String) (home : Option String)
    (isGlobal : Bool) : Except (ErrorType × String) String :=
  (PathResolverImpl.getConfigDirectory cwd home isGlobal).map
    (fun d => joinPath [d, "settings.json"])

theorem joinPath_two (a b : String) (ha : a ≠ "") (hb : b ≠ "") :
    joinPath [a, b] = a ++ "/" ++ b := by
  unfold joinPath
  have ha2 : (a != "") = true := bne_iff_ne.mpr ha
  have hb2 : (b != "") = true := bne_iff_ne.mpr hb
  rw [show [a, b].filter (fun s => s != "") = [a, b] from by
    simp [List.filter, ha2, hb2]]
  rfl

theorem joinPath_three (a b c : String) (ha : a ≠ "") (hb : b ≠ "") (hc : c ≠ "") :
    joinPath [a, b, c] = a ++ "/" ++ (b ++ "/" ++ c) := by
  unfold joinPath
  have ha2 : (a != "") = true := bne_iff_ne.mpr ha
  have hb2 : (b != "") = true := bne_iff_ne.mpr hb
  have hc2 : (c != "") = true := bne_iff_ne.mpr hc
  rw [show [a, b, c].filter (fun s => s != "") = [a, b, c] from by
    simp [List.filter, ha2, hb2, hc2]]
  rfl

theorem joined_ne_empty (a b : String) : a ++ "/" ++ b ≠ "" := by
  intro h
  have hlen := congrArg String.length h
  rw [String.length_append, String.length_append] at hlen
  have h1 : "/".length = 1 := rfl
  have h2 : ("" : String).length = 0 := rfl
  omega

/-- C9 counterexample: when the home directory comes back empty, the cited
`PathResolverImpl.getHomeDirectory` (src/utils/paths.ts:54-74) throws
`FILE_PERMISSION_ERROR`, not `DIRECTORY_ACCESS_ERROR` as the claim states. -/
theorem getConfigPath_error_kind_counterexample :
    PathResolverImpl.getConfigPath "/work" (some "") true =
      .error (.filePermissionError, "Unable to determine home directory") ∧
    ErrorType.filePermissionError ≠ ErrorType.directoryAccessError :=
  ⟨rfl, by decide⟩

/-- C9 amended: `getConfigPath(false)` is `.claude/settings.json` joined under the
current working directory and `getConfigPath(true)` the same relative suffix under
the home directory; when the home directory cannot be determined (empty string or
OS-level failure) the path resolver fails with `FILE_PERMISSION_ERROR` -- the
FilePermission error kind, not the DirectoryAccess kind the claim names. -/
theorem getConfigPath_spec (cwd h : String) (home : Option String)
    (hcwd : cwd ≠ "") (hh : h ≠ "") :
    ConfigManagerImpl.getConfigPath cwd h false =
      cwd ++ "/" ++ ".claude/settings.json" ∧
    ConfigManagerImpl.getConfigPath cwd h true =
      h ++ "/" ++ ".claude/settings.json" ∧
    PathResolverImpl.getConfigPath cwd home false =
      .ok (cwd ++ "/" ++ ".claude/settings.json") ∧
    PathResolverImpl.getConfigPath cwd (some h) true =
      .ok (h ++ "/" ++ ".claude/settings.json") ∧
    (∃ msg, PathResolverImpl.getConfigPath cwd (some "") true =
      .error (.filePermissionError, msg)) ∧
    (∃ msg, PathResolverImpl.getConfigPath cwd none true =
      .error (.filePermissionError, msg)) := by
  have hdotc : (".claude" : String) ≠ "" := by decide
  have hsj : ("settings.json" : String) ≠ "" := by decide
  refine ⟨?_, ?_, ?_, ?_, ⟨_, rfl⟩, ⟨_, rfl⟩⟩
  · show joinPath [cwd, ".claude", "settings.json"] = _
    rw [joinPath_three cwd ".claude" "settings.json" hcwd hdotc hsj]
    rfl
  · show joinPath [h, ".claude", "settings.json"] = _
    rw [joinPath_three h ".claude" "settings.json" hh hdotc hsj]
    rfl
  · show Except.map (fun d => joinPath [d, "settings.json"])
      (.ok (joinPath [cwd, ".claude"])) = _
    rw [joinPath_two cwd ".claude" hcwd hdotc]
    show Except.ok (joinPath [cwd ++ "/" ++ ".claude", "settings.json"]) = _
    rw [joinPath_two _ "settings.json" (joined_ne_empty cwd ".claude") hsj,
      String.append_assoc, String.append_assoc]
    rfl
  · unfold PathResolverImpl.getConfigPath PathResolverImpl.getConfigDirectory
      PathResolverImpl.getHomeDirectory
    rw [if_pos rfl]
    simp only []
    rw [if_neg hh]
    show Except.ok (joinPath [joinPath [h, ".claude"], "settings.json"]) = _
    rw [joinPath_two h ".claude" hh hdotc,
      joinPath_two _ "settings.json" (joined_ne_empty h ".claude") hsj,
      String.append_assoc, String.append_assoc]
    rfl

theorem getConfigPath_spec_witness :
    ConfigManagerImpl.getConfigPath "/work" "/home/u" false =
      "/work" ++ "/" ++ ".claude/settings.json" ∧
    ConfigManagerImpl.getConfigPath "/work" "/home/u" true =
      "/home/u" ++ "/" ++ ".claude/settings.json" ∧
    PathResolverImpl.getConfigPath "/work" (some "/home/u") false =
      .ok ("/work" ++ "/" ++ ".claude/settings.json") ∧
    PathResolverImpl.getConfigPath "/work" (some "/home/u") true =
      .ok ("/home/u" ++ "/" ++ ".claude/settings.json") ∧
    (∃ msg, PathResolverImpl.getConfigPath "/work" (some "") true =
      .error (.filePermissionError, msg)) ∧
    (∃ msg, PathResolverImpl.getConfigPath "/work" none true =
      .error (.filePermissionError, msg)) :=
  getConfigPath_spec "/work" "/home/u" (some "/home/u") (by decide) (by decide)

end CCNotify
